import Mathlib

/-!
Shallow embedding of the fritter-front persona / follow-graph backend.

Text values are modelled as `List Char`; the MongoDB collections are modelled
as lists in insertion order (`findOne` = first match, natural order =
insertion order); ObjectIds and timestamps are modelled as naturals drawn
from a monotone counter / clock threaded through the state.
-/

namespace Fritter

/-- Strings are modelled as lists of characters. -/
abbrev Str := List Char

/-- JS regex word character `\w`, i.e. `[A-Za-z0-9_]` (`Char.isAlphanum`
covers exactly the ASCII letters and digits). -/
def wordChar (c : Char) : Bool := c.isAlphanum || c == '_'

/-- ASCII whitespace removed by JS `String.prototype.trim` (space, tab,
newline, carriage return, vertical tab, form feed). -/
def jsSpace (c : Char) : Bool :=
  c == ' ' || c == '\t' || c == '\n' || c == '\r' || c == '\x0b' || c == '\x0c'

/-- Models `s.trim()`: strip whitespace from both ends. -/
def jsTrim (l : Str) : Str :=
  ((l.dropWhile jsSpace).reverse.dropWhile jsSpace).reverse

/-- Models `new RegExp('^' ++ p ++ '$').test s` for a pattern `p` built from
word characters and the wildcard `.` — the fragment of JS regex syntax that
the handle lookups verified in this file are applied to.  Each pattern
character must match the corresponding subject character; `.` matches any
character except a line terminator. -/
def patMatch : Str → Str → Bool
  | [], [] => true
  | [], _ :: _ => false
  | _ :: _, [] => false
  | p :: ps, c :: cs => (if p == '.' then c != '\n' else p == c) && patMatch ps cs

theorem wordChar_not_space {c : Char} (h : wordChar c = true) : jsSpace c = false := by
  cases heq : jsSpace c with
  | false => rfl
  | true =>
    exfalso
    simp only [jsSpace, Bool.or_eq_true, beq_iff_eq] at heq
    rcases heq with ((((h1 | h1) | h1) | h1) | h1) | h1 <;> subst h1 <;>
      exact absurd h (by decide)

theorem dropWhile_eq_self_of_all {p : Char → Bool} {l : Str}
    (h : ∀ c ∈ l, p c = false) : l.dropWhile p = l := by
  cases l with
  | nil => rfl
  | cons a t =>
    have : p a = false := h a (List.mem_cons_self a t)
    simp [List.dropWhile, this]

/-- Trimming a pure word token is the identity. -/
theorem jsTrim_eq_self {l : Str} (h : l.all wordChar = true) : jsTrim l = l := by
  have hall : ∀ c ∈ l, wordChar c = true := List.all_eq_true.mp h
  have h1 : ∀ c ∈ l, jsSpace c = false := fun c hc => wordChar_not_space (hall c hc)
  have h2 : ∀ c ∈ l.reverse, jsSpace c = false := fun c hc =>
    h1 c (List.mem_reverse.mp hc)
  simp [jsTrim, dropWhile_eq_self_of_all h1, dropWhile_eq_self_of_all h2]

/-- Against a pattern made only of word characters, the anchored regex test is
exactly case-sensitive string equality. -/
theorem patMatch_wordToken (p : Str) (hp : p.all wordChar = true) (s : Str) :
    patMatch p s = true ↔ s = p := by
  induction p generalizing s with
  | nil =>
    cases s with
    | nil => simp [patMatch]
    | cons c cs => simp [patMatch]
  | cons a ps ih =>
    have ha : wordChar a = true := (List.all_eq_true.mp hp) a (List.mem_cons_self a ps)
    have hps : ps.all wordChar = true :=
      List.all_eq_true.mpr fun c hc => (List.all_eq_true.mp hp) c (List.mem_cons_of_mem a hc)
    have hadot : (a == '.') = false := by
      cases hd : a == '.' with
      | false => rfl
      | true =>
        exfalso
        have : a = '.' := beq_iff_eq.mp hd
        subst this
        exact absurd ha (by decide)
    cases s with
    | nil => simp [patMatch]
    | cons c cs =>
      simp only [patMatch, hadot, Bool.false_eq_true, if_false, Bool.and_eq_true,
        beq_iff_eq, List.cons.injEq, ih hps cs]
      constructor
      · rintro ⟨h1, h2⟩; exact ⟨h1.symm, h2⟩
      · rintro ⟨h1, h2⟩; exact ⟨h1.symm, h2⟩

/-- Models the handle format check `/^\w+$/i.test(handle)` from
`isValidHandle`: a nonempty token of word characters (the `i` flag is
irrelevant since `\w` is already case-insensitive). -/
def validHandle (h : Str) : Bool := !h.isEmpty && h.all wordChar

theorem validHandle_all_word {h : Str} (hh : validHandle h = true) :
    h.all wordChar = true := by
  simp only [validHandle, Bool.and_eq_true] at hh
  exact hh.2

/-- A nonempty word token: the language of `\w+`. -/
def Chunk (w : Str) : Prop := w ≠ [] ∧ w.all wordChar = true

/-- The language of `[ ]?\w+`: a chunk, optionally preceded by one space. -/
def NamePart (p : Str) : Prop := Chunk p ∨ ∃ w, Chunk w ∧ p = ' ' :: w

/-- Denotation of the name format regex `/^\w+(([ ]?\w+){1,5})$/i` from
`isValidName`: a leading `\w+` chunk followed by one to five `[ ]?\w+`
parts, consuming the whole string (the `i` flag is irrelevant for `\w`
and the space). -/
def NameMatch (l : Str) : Prop :=
  ∃ (w : Str) (ps : List Str), Chunk w ∧ 1 ≤ ps.length ∧ ps.length ≤ 5 ∧
    (∀ p ∈ ps, NamePart p) ∧ l = w ++ ps.flatten

/-- Split a string at every space character (the resulting words may be
empty when spaces are adjacent or at either end). -/
def splitSp : Str → List Str
  | [] => [[]]
  | c :: rest =>
    if c == ' ' then [] :: splitSp rest
    else
      match splitSp rest with
      | [] => [[c]]
      | w :: ws => (c :: w) :: ws

/-- Rejoin words with single spaces; left inverse of `splitSp`. -/
def unsplit : List Str → Str
  | [] => []
  | [w] => w
  | w :: ws => w ++ ' ' :: unsplit ws

/-- Executable characterisation of the name regex language: every
space-delimited word is a nonempty word-character token, there are at most
six of them, and the string holds at least two word characters overall. -/
def specNameCheck (l : Str) : Bool :=
  (splitSp l).all (fun w => !w.isEmpty && w.all wordChar) &&
    decide ((splitSp l).length ≤ 6) && decide (2 ≤ l.countP wordChar)

theorem splitSp_ne_nil (l : Str) : splitSp l ≠ [] := by
  cases l with
  | nil => simp [splitSp]
  | cons c rest =>
    simp only [splitSp]
    split
    · simp
    · split
      · simp
      · simp

theorem unsplit_cons {w : Str} {ws : List Str} (h : ws ≠ []) :
    unsplit (w :: ws) = w ++ ' ' :: unsplit ws := by
  cases ws with
  | nil => exact absurd rfl h
  | cons x xs => rfl

theorem unsplit_splitSp (l : Str) : unsplit (splitSp l) = l := by
  induction l with
  | nil => rfl
  | cons c rest ih =>
    simp only [splitSp]
    by_cases hc : c = ' '
    · simp only [hc, beq_self_eq_true, if_true]
      rw [unsplit_cons (splitSp_ne_nil rest)]
      simp [ih]
    · simp only [beq_eq_false_iff_ne.mpr hc, Bool.false_eq_true, if_false]
      cases hs : splitSp rest with
      | nil => exact absurd hs (splitSp_ne_nil rest)
      | cons w ws =>
        cases ws with
        | nil =>
          rw [hs] at ih
          simpa [unsplit] using congrArg (c :: ·) ih
        | cons y ys =>
          rw [hs] at ih
          rw [unsplit_cons (by simp)] at ih
          show unsplit ((c :: w) :: y :: ys) = c :: rest
          rw [unsplit_cons (by simp), ← ih]
          simp

theorem splitSp_chunk_append {w : Str} (hw : ∀ c ∈ w, c ≠ ' ')
    {t : Str} {u : Str} {us : List Str} (ht : splitSp t = u :: us) :
    splitSp (w ++ t) = (w ++ u) :: us := by
  induction w with
  | nil => simpa using ht
  | cons c w' ih =>
    have hc : c ≠ ' ' := hw c (List.mem_cons_self c w')
    have ih' := ih fun d hd => hw d (List.mem_cons_of_mem c hd)
    simp only [List.cons_append, splitSp, beq_eq_false_iff_ne.mpr hc,
      Bool.false_eq_true, if_false, List.append_eq, ih']

theorem splitSp_unsplit {ws : List Str} (hne : ws ≠ [])
    (hall : ∀ w ∈ ws, w.all wordChar = true) :
    splitSp (unsplit ws) = ws := by
  induction ws with
  | nil => exact absurd rfl hne
  | cons w rest ih =>
    have hwsp : ∀ c ∈ w, c ≠ ' ' := by
      intro c hc heq
      have := (List.all_eq_true.mp (hall w (List.mem_cons_self w rest))) c hc
      subst heq
      exact absurd this (by decide)
    cases rest with
    | nil =>
      have : splitSp ([] : Str) = [[]] := rfl
      have h2 := splitSp_chunk_append hwsp this
      simpa [unsplit] using h2
    | cons y ys =>
      have ih' := ih (by simp)
        (fun x hx => hall x (List.mem_cons_of_mem w hx))
      rw [unsplit_cons (by simp)]
      have hsp : splitSp (' ' :: unsplit (y :: ys)) = [] :: y :: ys := by
        simp only [splitSp, beq_self_eq_true, if_true, ih']
      have := splitSp_chunk_append hwsp hsp
      simpa using this

theorem chunk_append {a b : Str} (ha : Chunk a) (hb : Chunk b) : Chunk (a ++ b) := by
  refine ⟨by simp [ha.1], ?_⟩
  rw [List.all_append, ha.2, hb.2]
  rfl

/-- Merge a leading chunk and a list of `[ ]?\w+` parts into the list of
space-delimited words they spell out. -/
def mergeParts (w : Str) : List Str → List Str
  | [] => [w]
  | [] :: ps => mergeParts w ps
  | (c :: q) :: ps =>
    if c == ' ' then w :: mergeParts q ps else mergeParts (w ++ c :: q) ps

theorem mergeParts_ne_nil (ps : List Str) (w : Str) : mergeParts w ps ≠ [] := by
  induction ps generalizing w with
  | nil => simp [mergeParts]
  | cons p ps ih =>
    cases p with
    | nil => simpa [mergeParts] using ih w
    | cons c q =>
      simp only [mergeParts]
      split
      · simp
      · exact ih _

theorem not_space_of_wordChar {c : Char} (hc : wordChar c = true) : (c == ' ') = false :=
  beq_eq_false_iff_ne.mpr fun h => absurd (h ▸ hc) (by decide)

theorem unsplit_mergeParts (ps : List Str) (w : Str) (hps : ∀ p ∈ ps, NamePart p) :
    unsplit (mergeParts w ps) = w ++ ps.flatten := by
  induction ps generalizing w with
  | nil => simp [mergeParts, unsplit]
  | cons p ps ih =>
    have hrest : ∀ q ∈ ps, NamePart q := fun q hq => hps q (List.mem_cons_of_mem p hq)
    rcases hps p (List.mem_cons_self p ps) with ⟨hne, hwrd⟩ | ⟨q, hq, rfl⟩
    · cases p with
      | nil => exact absurd rfl hne
      | cons c r =>
        have hc : wordChar c = true :=
          (List.all_eq_true.mp hwrd) c (List.mem_cons_self c r)
        simp only [mergeParts, not_space_of_wordChar hc, Bool.false_eq_true, if_false]
        rw [ih _ hrest]
        simp
    · simp only [mergeParts, beq_self_eq_true, if_true]
      rw [unsplit_cons (mergeParts_ne_nil ps q), ih q hrest]
      simp

theorem mergeParts_length (ps : List Str) (w : Str) :
    (mergeParts w ps).length ≤ 1 + ps.length := by
  induction ps generalizing w with
  | nil => simp [mergeParts]
  | cons p ps ih =>
    cases p with
    | nil =>
      have := ih w
      simp only [mergeParts, List.length_cons]
      omega
    | cons c q =>
      simp only [mergeParts, List.length_cons]
      split
      · have := ih q
        simp only [List.length_cons]
        omega
      · have := ih (w ++ c :: q)
        omega

theorem mergeParts_chunk (ps : List Str) (w : Str) (hw : Chunk w)
    (hps : ∀ p ∈ ps, NamePart p) : ∀ x ∈ mergeParts w ps, Chunk x := by
  induction ps generalizing w with
  | nil =>
    intro x hx
    simp only [mergeParts, List.mem_singleton] at hx
    exact hx ▸ hw
  | cons p ps ih =>
    have hrest : ∀ q ∈ ps, NamePart q := fun q hq => hps q (List.mem_cons_of_mem p hq)
    rcases hps p (List.mem_cons_self p ps) with ⟨hne, hwrd⟩ | ⟨q, hq, rfl⟩
    · cases p with
      | nil => exact absurd rfl hne
      | cons c r =>
        have hc : wordChar c = true :=
          (List.all_eq_true.mp hwrd) c (List.mem_cons_self c r)
        simp only [mergeParts, not_space_of_wordChar hc, Bool.false_eq_true, if_false]
        exact ih _ (chunk_append hw ⟨by simp, hwrd⟩) hrest
    · simp only [mergeParts, beq_self_eq_true, if_true]
      intro x hx
      rcases List.mem_cons.mp hx with rfl | hx
      · exact hw
      · exact ih q hq hrest x hx

theorem chunk_countP {q : Str} (hq : Chunk q) : 1 ≤ q.countP wordChar := by
  have : q.countP wordChar = q.length :=
    List.countP_eq_length.mpr fun a ha => (List.all_eq_true.mp hq.2) a ha
  rw [this]
  cases q with
  | nil => exact absurd rfl hq.1
  | cons a t => simp

theorem namePart_countP {p : Str} (hp : NamePart p) : 1 ≤ p.countP wordChar := by
  rcases hp with hp | ⟨q, hq, rfl⟩
  · exact chunk_countP hp
  · have := chunk_countP hq
    simp only [List.countP_cons]
    omega

theorem specNameCheck_of_nameMatch {l : Str} (h : NameMatch l) : specNameCheck l = true := by
  obtain ⟨w, ps, hw, hps1, hps5, hparts, rfl⟩ := h
  have hchunks : ∀ x ∈ mergeParts w ps, Chunk x := mergeParts_chunk ps w hw hparts
  have hsplit : splitSp (w ++ ps.flatten) = mergeParts w ps := by
    have hs := splitSp_unsplit (mergeParts_ne_nil ps w) (fun x hx => (hchunks x hx).2)
    rw [unsplit_mergeParts ps w hparts] at hs
    exact hs
  have hcount : 2 ≤ (w ++ ps.flatten).countP wordChar := by
    cases ps with
    | nil => simp at hps1
    | cons p rest =>
      have h1 : 1 ≤ w.countP wordChar := chunk_countP hw
      have h2 : 1 ≤ p.countP wordChar := namePart_countP (hparts p (List.mem_cons_self p rest))
      simp only [List.countP_append, List.flatten_cons]
      omega
  simp only [specNameCheck, hsplit, Bool.and_eq_true, decide_eq_true_eq]
  refine ⟨⟨?_, ?_⟩, hcount⟩
  · refine List.all_eq_true.mpr fun x hx => ?_
    have hc := hchunks x hx
    have hxe : x.isEmpty = false := by
      cases x with
      | nil => exact absurd rfl hc.1
      | cons a t => rfl
    simp [hxe, hc.2]
  · have := mergeParts_length ps w
    omega

theorem unsplit_eq_flatten_map (zs : List Str) (z : Str) :
    unsplit (z :: zs) = z ++ (zs.map (fun q => ' ' :: q)).flatten := by
  induction zs generalizing z with
  | nil => simp [unsplit]
  | cons y t ih =>
    rw [unsplit_cons (by simp), ih y]
    simp

theorem nameMatch_of_specNameCheck {l : Str} (h : specNameCheck l = true) : NameMatch l := by
  simp only [specNameCheck, Bool.and_eq_true, decide_eq_true_eq] at h
  obtain ⟨⟨hall, hlen⟩, hcnt⟩ := h
  have hallw : ∀ w ∈ splitSp l, Chunk w := by
    intro w hw
    have hx := (List.all_eq_true.mp hall) w hw
    simp only [Bool.and_eq_true, Bool.not_eq_true'] at hx
    refine ⟨?_, hx.2⟩
    intro heq
    subst heq
    simp at hx
  have hl : unsplit (splitSp l) = l := unsplit_splitSp l
  cases hsp : splitSp l with
  | nil => exact absurd hsp (splitSp_ne_nil l)
  | cons x ws =>
    rw [hsp] at hl hallw hlen
    cases ws with
    | nil =>
      have hx : Chunk x := hallw x (List.mem_cons_self x [])
      have hxl : x = l := by simpa [unsplit] using hl
      subst hxl
      have hcpl : x.countP wordChar = x.length :=
        List.countP_eq_length.mpr fun a ha => (List.all_eq_true.mp hx.2) a ha
      rw [hcpl] at hcnt
      match x, hx, hcnt with
      | a :: b :: t, hx, _ =>
        refine ⟨[a], [b :: t], ⟨by simp, ?_⟩, by simp, by simp, ?_, by simp⟩
        · have := (List.all_eq_true.mp hx.2) a (List.mem_cons_self a _)
          simp [this]
        · intro p hp
          rw [List.mem_singleton] at hp
          subst hp
          refine Or.inl ⟨by simp, ?_⟩
          refine List.all_eq_true.mpr fun c hc => ?_
          exact (List.all_eq_true.mp hx.2) c (List.mem_cons_of_mem a hc)
    | cons y ys =>
      refine ⟨x, (y :: ys).map (fun q => ' ' :: q), hallw x (List.mem_cons_self x _),
        by simp, ?_, ?_, ?_⟩
      · simp only [List.length_map, List.length_cons] at *
        omega
      · intro p hp
        rcases List.mem_map.mp hp with ⟨q, hq, rfl⟩
        exact Or.inr ⟨q, hallw q (List.mem_cons_of_mem x hq), rfl⟩
      · rw [← hl, unsplit_eq_flatten_map]

/-- The name regex `/^\w+(([ ]?\w+){1,5})$/i` accepts exactly the strings made
of one to six nonempty word-character groups joined by single spaces and
containing at least two word characters in total. -/
theorem nameMatch_iff (l : Str) : NameMatch l ↔ specNameCheck l = true :=
  ⟨specNameCheck_of_nameMatch, nameMatch_of_specNameCheck⟩

instance (l : Str) : Decidable (NameMatch l) :=
  decidable_of_iff (specNameCheck l = true) (nameMatch_iff l).symm

/-- An account record (from the external user collection), as far as the
persona layer reads it: a stable id and a username. -/
structure Usr where
  uid : Nat
  username : Str
  deriving DecidableEq, Repr

/-- A Persona document: `_id`, owning account username, handle, display name
(`src/.../persona model`). -/
structure Persona where
  pid : Nat
  user : Str
  handle : Str
  name : Str
  deriving DecidableEq, Repr

/-- A Follow document: `_id`, follower persona id, followed persona id and
creation timestamp (`src/server/follow/model.ts`). -/
structure Follow where
  fid : Nat
  followerId : Nat
  followingId : Nat
  dateFollowed : Nat
  deriving DecidableEq, Repr

/-- The document store: each collection is a list in insertion order (MongoDB
natural order for these append-only collections).  `nextId` is the supply of
fresh ObjectIds; `now` is the wall clock stamped into `new Date()`. -/
structure DB where
  users : List Usr
  personas : List Persona
  follows : List Follow
  nextId : Nat
  now : Nat
  deriving DecidableEq, Repr

/-- The express session: `userId` set at account login, `personaId` is the
active-persona binding, and `personId` is the separate (misspelled) field the
persona-creation handler writes. -/
structure Session where
  userId : Option Nat
  personaId : Option Nat
  personId : Option Nat
  deriving DecidableEq, Repr

instance exceptDecEq {ε α : Type} [DecidableEq ε] [DecidableEq α] :
    DecidableEq (Except ε α) := fun x y =>
  match x, y with
  | .error e, .error f =>
    if h : e = f then .isTrue (congrArg Except.error h)
    else .isFalse fun c => h (Except.error.inj c)
  | .ok a, .ok b =>
    if h : a = b then .isTrue (congrArg Except.ok h)
    else .isFalse fun c => h (Except.ok.inj c)
  | .error _, .ok _ => .isFalse fun c => Except.noConfusion c
  | .ok _, .error _ => .isFalse fun c => Except.noConfusion c

/-- The error outcomes the routers produce, named by the HTTP status they are
sent with: 400, 401, 403, 404, 409; `serverErr` stands for an uncaught
exception (e.g. dereferencing a `null` query result). -/
inductive Err
  | badRequest
  | unauthorized
  | forbidden
  | notFound
  | conflict
  | serverErr
  deriving DecidableEq, Repr

/-- `UserCollection.findOneByUserId`. -/
def findOneByUserId (db : DB) (uid : Nat) : Option Usr :=
  db.users.find? fun u => u.uid == uid

/-- `PersonaCollection.findOneByPersonaId`: `PersonaModel.findOne({_id})`. -/
def findOneByPersonaId (db : DB) (personaId : Nat) : Option Persona :=
  db.personas.find? fun p => p.pid == personaId

/-- `PersonaCollection.findOneByHandle`:
`PersonaModel.findOne({handle: new RegExp('^' + handle.trim() + '$')})` —
an anchored, case-sensitive pattern match over the trimmed input. -/
def findOneByHandle (db : DB) (handle : Str) : Option Persona :=
  db.personas.find? fun p => patMatch (jsTrim handle) p.handle

/-- `PersonaCollection.findOneByUserAndHandle`: anchored pattern match on
both the owner username and the handle. -/
def findOneByUserAndHandle (db : DB) (username handle : Str) : Option Persona :=
  db.personas.find? fun p =>
    patMatch (jsTrim username) p.user && patMatch (jsTrim handle) p.handle

/-- `PersonaCollection.addOne`: persist a new Persona document. -/
def personaAddOne (db : DB) (username handle name : Str) : DB × Persona :=
  let p : Persona := ⟨db.nextId, username, handle, name⟩
  ({ db with personas := db.personas ++ [p], nextId := db.nextId + 1 }, p)

/-- `PersonaCollection.deleteOne`: `PersonaModel.deleteOne({_id})` removes the
first (unique) document with that id. -/
def personaDeleteOne (db : DB) (personaId : Nat) : DB :=
  { db with personas := db.personas.eraseP fun p => p.pid == personaId }

/-- `FollowCollection.findOneByPartyIds`:
`FollowModel.findOne({followerId, followingId})`, an equality lookup on the
exact ordered pair. -/
def findOneByPartyIds (db : DB) (followerId followingId : Nat) : Option Follow :=
  db.follows.find? fun f =>
    f.followerId == followerId && f.followingId == followingId

/-- `FollowCollection.findAllInitiatedById`:
`FollowModel.find({followerId})` — note: no `.sort(...)` is applied, so the
documents come back in natural (insertion) order. -/
def findAllInitiatedById (db : DB) (personaId : Nat) : List Follow :=
  db.follows.filter fun f => f.followerId == personaId

/-- `FollowCollection.findAllReceivedById`:
`FollowModel.find({followingId})` — again without a `.sort(...)`. -/
def findAllReceivedById (db : DB) (personaId : Nat) : List Follow :=
  db.follows.filter fun f => f.followingId == personaId

/-- `FollowCollection.addOne`: stamp `new Date()` into `dateFollowed`, assign
a fresh id and append.  The clock advances between requests, so `now` is
incremented after being read. -/
def followAddOne (db : DB) (followerId followingId : Nat) : DB × Follow :=
  let f : Follow := ⟨db.nextId, followerId, followingId, db.now⟩
  ({ db with follows := db.follows ++ [f], nextId := db.nextId + 1, now := db.now + 1 }, f)

/-- `FollowCollection.deleteOne`: `FollowModel.deleteOne({_id})`. -/
def followDeleteOne (db : DB) (followId : Nat) : DB :=
  { db with follows := db.follows.eraseP fun f => f.fid == followId }

/-- `FollowCollection.deleteMany`: `FollowModel.deleteMany({followerId})` —
it only matches edges where the persona is the follower, and no route in
the source ever calls it. -/
def followDeleteMany (db : DB) (personaId : Nat) : DB :=
  { db with follows := db.follows.filter fun f => !(f.followerId == personaId) }

/-- `POST /api/persona` (persona router): middleware `isUserLoggedIn`,
`isValidName`, `isValidHandle`, `isHandleNotAlreadyInUse` in that order, then
the handler persists the persona and writes its id into `req.session.personId`
(note the spelling: not `personaId`). -/
def createPersona (db : DB) (s : Session) (username handle name : Str) :
    Except Err (DB × Session × Persona) :=
  match s.userId with
  | none => .error .forbidden
  | some _ =>
    if ¬ NameMatch name then .error .badRequest
    else if validHandle handle = false then .error .badRequest
    else if (findOneByHandle db handle).isSome then .error .conflict
    else
      let r := personaAddOne db username handle name
      .ok (r.1, { s with personId := some r.2.pid }, r.2)

/-- `POST /api/persona/session` (persona sign-in): middleware
`isUserLoggedIn`, `isValidHandle`, `isPersonaHandleExistWithUser` (resolves
the logged-in account's username, then requires a persona with this handle
under that username), then the handler re-resolves the handle globally and
binds `req.session.personaId` to the resolved persona's id. -/
def signInPersona (db : DB) (s : Session) (handle : Str) :
    Except Err (DB × Session × Persona) :=
  match s.userId with
  | none => .error .forbidden
  | some uid =>
    if validHandle handle = false then .error .badRequest
    else
      match findOneByUserId db uid with
      | none => .error .serverErr
      | some u =>
        match findOneByUserAndHandle db u.username handle with
        | none => .error .notFound
        | some _ =>
          match findOneByHandle db handle with
          | none => .error .serverErr
          | some p => .ok (db, { s with personaId := some p.pid }, p)

/-- `POST /api/follows` (follow router): middleware `isUserLoggedIn`,
`isPersonaSignedIn`, `isPersonaExists` (the target), then
`isFollowNotExistUnderSignedInPersona` (equality lookup on the ordered pair
(active persona, target)); the handler inserts the edge. -/
def followOp (db : DB) (s : Session) (targetId : Nat) :
    Except Err (DB × Session × Follow) :=
  match s.userId with
  | none => .error .forbidden
  | some _ =>
    match s.personaId with
    | none => .error .forbidden
    | some me =>
      match findOneByPersonaId db targetId with
      | none => .error .notFound
      | some _ =>
        match findOneByPartyIds db me targetId with
        | some _ => .error .conflict
        | none =>
          let r := followAddOne db me targetId
          .ok (r.1, s, r.2)

/-- `DELETE /api/follows?personaId=id` (unfollow): middleware
`isUserLoggedIn`, `isPersonaSignedIn`, `isPersonaQueryExists`,
`isFollowExistUnderSignedInPersona`; the handler looks the edge up by the
ordered pair and deletes it by its id. -/
def unfollowOp (db : DB) (s : Session) (targetId : Nat) :
    Except Err (DB × Session) :=
  match s.userId with
  | none => .error .forbidden
  | some _ =>
    match s.personaId with
    | none => .error .forbidden
    | some me =>
      match findOneByPersonaId db targetId with
      | none => .error .notFound
      | some _ =>
        match findOneByPartyIds db me targetId with
        | none => .error .notFound
        | some f => .ok (followDeleteOne db f.fid, s)

/-- `DELETE /api/persona?personaId=id`: middleware `isUserLoggedIn`,
`isPersonaQueryExists`; the handler rejects deleting the currently active
persona with HTTP 401, and otherwise calls `PersonaCollection.deleteOne` —
and nothing else: no follow-edge cleanup is performed. -/
def deletePersonaOp (db : DB) (s : Session) (personaId : Nat) :
    Except Err DB :=
  match s.userId with
  | none => .error .forbidden
  | some _ =>
    match findOneByPersonaId db personaId with
    | none => .error .notFound
    | some _ =>
      if s.personaId = some personaId then .error .unauthorized
      else .ok (personaDeleteOne db personaId)

theorem find?_append_none {α : Type} (p : α → Bool) {l : List α}
    (h : l.find? p = none) (l' : List α) : (l ++ l').find? p = l'.find? p := by
  induction l with
  | nil => rfl
  | cons a t ih =>
    cases hp : p a with
    | true => simp [List.find?, hp] at h
    | false =>
      simp only [List.find?, hp] at h
      simp only [List.cons_append, List.find?, hp]
      exact ih h

theorem eraseP_fresh_append {α : Type} (p : α → Bool) {l : List α}
    (h : ∀ x ∈ l, p x = false) {a : α} (ha : p a = true) :
    (l ++ [a]).eraseP p = l := by
  induction l with
  | nil => simp [List.eraseP, ha]
  | cons b t ih =>
    have hb : p b = false := h b (List.mem_cons_self b t)
    have ih' := ih fun x hx => h x (List.mem_cons_of_mem b hx)
    simp only [List.cons_append, List.eraseP_cons, hb, cond_false, ih']

theorem find?_eraseP_of_nodup {α β : Type} [DecidableEq β] (f : α → β) (v : β)
    {l : List α} (h : (l.map f).Nodup) :
    ((l.eraseP fun x => f x == v).find? fun x => f x == v) = none := by
  induction l with
  | nil => rfl
  | cons a t ih =>
    rw [List.map_cons, List.nodup_cons] at h
    obtain ⟨hna, ht⟩ := h
    cases hp : (f a == v) with
    | true =>
      have hv : f a = v := beq_iff_eq.mp hp
      simp only [List.eraseP_cons, hp, cond_true]
      refine List.find?_eq_none.mpr fun x hx => ?_
      simp only [beq_iff_eq]
      intro hxv
      exact hna (by rw [hv, ← hxv]; exact List.mem_map_of_mem f hx)
    | false =>
      simp only [List.eraseP_cons, hp, cond_false, List.find?, ih ht]

/-- For a pure word-token query, the anchored regex test over the trimmed
input coincides with case-sensitive equality. -/
theorem patMatch_eq_beq {q : Str} (hq : q.all wordChar = true) (s : Str) :
    patMatch (jsTrim q) s = (s == q) := by
  rw [jsTrim_eq_self hq]
  cases hb : s == q with
  | true => exact (patMatch_wordToken q hq s).mpr (beq_iff_eq.mp hb)
  | false =>
    cases hm : patMatch q s with
    | false => rfl
    | true => exact absurd ((patMatch_wordToken q hq s).mp hm) (by simpa using hb)

/-- When the queried handle is a valid handle token, the regex-based lookup
`findOneByHandle` is a first-match exact-equality lookup. -/
theorem findOneByHandle_eq_exact (db : DB) {h : Str} (hh : validHandle h = true) :
    findOneByHandle db h = db.personas.find? fun p => p.handle == h := by
  have hw : h.all wordChar = true := validHandle_all_word hh
  have hfun : (fun p : Persona => patMatch (jsTrim h) p.handle) =
      fun p : Persona => p.handle == h := funext fun p => patMatch_eq_beq hw p.handle
  rw [findOneByHandle, hfun]

theorem findOneByUserAndHandle_eq_exact (db : DB) {u h : Str}
    (hu : u.all wordChar = true) (hh : validHandle h = true) :
    findOneByUserAndHandle db u h =
      db.personas.find? fun p => p.user == u && p.handle == h := by
  have hw : h.all wordChar = true := validHandle_all_word hh
  have hfun : (fun p : Persona =>
      patMatch (jsTrim u) p.user && patMatch (jsTrim h) p.handle) =
      fun p : Persona => p.user == u && p.handle == h :=
    funext fun p => by rw [patMatch_eq_beq hu p.user, patMatch_eq_beq hw p.handle]
  rw [findOneByUserAndHandle, hfun]

/-- C2: with a logged-in session and format-valid inputs, `create` fails with
`Conflict` exactly when a persona whose handle equals the requested handle
under exact, case-sensitive comparison already exists; handles differing in
letter case do not collide. -/
theorem create_handle_conflict_iff (db : DB) (s : Session) (u h n : Str)
    (hlog : s.userId.isSome = true) (hh : validHandle h = true) (hn : NameMatch n) :
    createPersona db s u h n = .error .conflict ↔ ∃ p ∈ db.personas, p.handle = h := by
  obtain ⟨uid, huid⟩ := Option.isSome_iff_exists.mp hlog
  simp only [createPersona, huid, hn, not_true, if_false, hh,
    findOneByHandle_eq_exact db hh]
  cases hfind : db.personas.find? fun p => p.handle == h with
  | some p =>
    simp only [hfind, Option.isSome_some, if_true]
    constructor
    · intro _
      have hpr := List.find?_some hfind
      exact ⟨p, List.mem_of_find?_eq_some hfind, beq_iff_eq.mp hpr⟩
    · intro _
      rfl
  | none =>
    simp only [hfind, Option.isSome_none, Bool.false_eq_true, if_false]
    constructor
    · intro hcontra
      exact Except.noConfusion hcontra
    · rintro ⟨p, hp, hph⟩
      exact absurd (beq_iff_eq.mpr hph) (List.find?_eq_none.mp hfind p hp)

def dbC2 : DB := ⟨[⟨0, "u".data⟩],
  [⟨1, "u".data, "alice".data, "Al Ice".data⟩,
   ⟨2, "u".data, "Alice".data, "Al Ice".data⟩], [], 3, 0⟩

/-- C2 witness: `alice` and `Alice` coexist (creation of the case variant
succeeded), and a second `create` with exactly `alice` hits `Conflict`. -/
theorem create_handle_conflict_iff_witness :
    createPersona dbC2 ⟨some 0, none, none⟩ "u".data "alice".data "Ab".data =
      .error .conflict :=
  (create_handle_conflict_iff dbC2 ⟨some 0, none, none⟩ "u".data "alice".data "Ab".data
    (by decide) (by decide) (by decide)).mpr
    ⟨⟨1, "u".data, "alice".data, "Al Ice".data⟩, by decide, by decide⟩

def dbC7 : DB := ⟨[⟨0, "u".data⟩], [⟨1, "u".data, "a".data, "Ab".data⟩], [], 2, 0⟩

/-- C7 counterexample: for the query string `.` the lookup returns the stored
persona whose handle is `a` — the regex wildcard matches a handle that is not
string-equal to the query, so the claim's "for every handle string h ...
exactly when ... equals h" is false. -/
theorem getByHandle_pattern_cex :
    findOneByHandle dbC7 ".".data = some ⟨1, "u".data, "a".data, "Ab".data⟩ ∧
      ("a".data : Str) ≠ ".".data := by decide

/-- C7 amended: whenever the queried string is a valid handle token (nonempty
word characters, which every calling route checks first), the anchored
regex lookup coincides with a first-match exact, case-sensitive equality
lookup. -/
theorem getByHandle_exact_on_valid (db : DB) (h : Str) (hh : validHandle h = true) :
    findOneByHandle db h = db.personas.find? fun p => p.handle == h :=
  findOneByHandle_eq_exact db hh

/-- C7 witness: the amended equivalence evaluated on a concrete store. -/
theorem getByHandle_exact_on_valid_witness :
    findOneByHandle dbC7 "a".data =
      dbC7.personas.find? fun p => p.handle == "a".data :=
  getByHandle_exact_on_valid dbC7 "a".data (by decide)

/-- Modelled from the words of claim C8: the display name is one to six
word-character groups, with at most one space between adjacent groups (no
leading/trailing/doubled spaces). -/
def nameOkPerClaim (l : Str) : Bool :=
  (splitSp l).all (fun w => !w.isEmpty && w.all wordChar) &&
    decide ((splitSp l).length ≤ 6)

def dbC8 : DB := ⟨[⟨0, "u".data⟩], [], [], 1, 0⟩

/-- C8 counterexample: the name `A` is a single word-character group — valid
per the claim — yet `create` rejects it with `InvalidFormat` (HTTP 400),
because the regex `/^\w+(([ ]?\w+){1,5})$/` needs at least two word
characters. -/
theorem create_single_char_name_cex :
    createPersona dbC8 ⟨some 0, none, none⟩ "u".data "goodhandle".data "A".data =
      .error .badRequest ∧
    nameOkPerClaim "A".data = true ∧
    validHandle "goodhandle".data = true := by decide

/-- C8 amended: with a logged-in session, `create` fails with `InvalidFormat`
exactly when the name is not 1–6 single-space-separated word-character groups
holding at least two word characters in total, or the handle is not a
nonempty word-character token. -/
theorem create_invalidFormat_iff (db : DB) (s : Session) (u h n : Str)
    (hlog : s.userId.isSome = true) :
    createPersona db s u h n = .error .badRequest ↔
      specNameCheck n = false ∨ validHandle h = false := by
  obtain ⟨uid, huid⟩ := Option.isSome_iff_exists.mp hlog
  by_cases hn : NameMatch n
  · have hsn : specNameCheck n = true := (nameMatch_iff n).mp hn
    cases hvh : validHandle h with
    | false => simp [createPersona, huid, hn, hvh]
    | true =>
      simp only [createPersona, huid, hn, not_true, if_false, hvh, hsn]
      cases hfind : (findOneByHandle db h).isSome <;> simp [hfind]
  · have hsn : specNameCheck n = false := by
      cases hs : specNameCheck n with
      | false => rfl
      | true => exact absurd ((nameMatch_iff n).mpr hs) hn
    simp [createPersona, huid, hn, hsn]

/-- C8 witness: the claim's own scenario — a handle containing a space is
rejected with `InvalidFormat`. -/
theorem create_invalidFormat_iff_witness :
    createPersona dbC8 ⟨some 0, none, none⟩ "u".data "bad handle".data "Ab".data =
      .error .badRequest :=
  (create_invalidFormat_iff dbC8 ⟨some 0, none, none⟩ "u".data "bad handle".data
    "Ab".data (by decide)).mpr (Or.inr (by decide))

/-- C10: a successful persona creation leaves the session's active-persona
binding `personaId` untouched and instead writes the new persona's id into
the distinct `personId` field. -/
theorem create_preserves_active_binding (db : DB) (s : Session) (u h n : Str)
    (db' : DB) (s' : Session) (p : Persona)
    (hok : createPersona db s u h n = .ok (db', s', p)) :
    s'.personaId = s.personaId ∧ s'.personId = some p.pid := by
  cases huid : s.userId with
  | none =>
    simp [createPersona, huid] at hok
  | some uid =>
    by_cases hn : NameMatch n
    · by_cases hv : validHandle h = false
      · simp [createPersona, huid, hn, hv] at hok
      · by_cases hf : (findOneByHandle db h).isSome = true
        · simp [createPersona, huid, hn, hv, hf] at hok
        · have heq : createPersona db s u h n =
              .ok ((personaAddOne db u h n).1,
                { s with personId := some (personaAddOne db u h n).2.pid },
                (personaAddOne db u h n).2) := by
            simp [createPersona, huid, hn, hv, hf]
          rw [heq] at hok
          have hmk := Except.ok.inj hok
          have h2 : ({ s with personId := some (personaAddOne db u h n).2.pid } :
              Session) = s' := congrArg (fun t => t.2.1) hmk
          have h3 : (personaAddOne db u h n).2 = p := congrArg (fun t => t.2.2) hmk
          rw [← h2, ← h3]
          exact ⟨rfl, rfl⟩
    · simp [createPersona, huid, hn] at hok

def dbC10 : DB := ⟨[⟨0, "u".data⟩], [], [], 0, 0⟩

def sC10 : Session := ⟨some 0, some 7, none⟩

/-- C10 witness: a concrete successful creation keeps `personaId = some 7`
and writes the new id 0 into `personId`. -/
theorem create_preserves_active_binding_witness :
    (⟨some 0, some 7, some 0⟩ : Session).personaId = sC10.personaId ∧
      (⟨some 0, some 7, some 0⟩ : Session).personId = some 0 :=
  create_preserves_active_binding dbC10 sC10 "u".data "h1".data "Ab".data
    ⟨[⟨0, "u".data⟩], [⟨0, "u".data, "h1".data, "Ab".data⟩], [], 1, 0⟩
    ⟨some 0, some 7, some 0⟩ ⟨0, "u".data, "h1".data, "Ab".data⟩ (by decide)

/-- C4: deleting the session's currently active persona is refused (the
handler answers before any write, with HTTP 401 in the existing mapping,
modelled as `Err.unauthorized`); in this model errors return no state, so
the stores are untouched by construction. -/
theorem deleteActivePersona_forbidden (db : DB) (s : Session) (a : Nat)
    (hu : s.userId.isSome = true) (ha : s.personaId = some a) (pa : Persona)
    (hex : findOneByPersonaId db a = some pa) :
    deletePersonaOp db s a = .error .unauthorized := by
  obtain ⟨uid, huid⟩ := Option.isSome_iff_exists.mp hu
  simp [deletePersonaOp, huid, hex, ha]

def dbC4 : DB := ⟨[⟨0, "u".data⟩], [⟨1, "u".data, "a1".data, "Ab".data⟩], [], 2, 0⟩

/-- C4 witness: with persona 1 active, deleting persona 1 is refused. -/
theorem deleteActivePersona_forbidden_witness :
    deletePersonaOp dbC4 ⟨some 0, some 1, none⟩ 1 = .error .unauthorized :=
  deleteActivePersona_forbidden dbC4 ⟨some 0, some 1, none⟩ 1 (by decide) (by decide)
    ⟨1, "u".data, "a1".data, "Ab".data⟩ (by decide)

def dbC1 : DB := ⟨[⟨0, "u".data⟩],
  [⟨1, "u".data, "a1".data, "Ab".data⟩, ⟨2, "u".data, "b2".data, "Cd".data⟩],
  [⟨3, 1, 2, 0⟩, ⟨4, 2, 1, 1⟩], 5, 2⟩

/-- C1 counterexample: deleting persona 1 (not the active persona) succeeds,
yet both follow edges touching persona 1 — as follower and as followee —
are still found afterwards, contradicting "findEdge(p, q) and findEdge(q, p)
return NotFound". -/
theorem deletePersona_edges_remain_cex :
    deletePersonaOp dbC1 ⟨some 0, none, none⟩ 1 = .ok (personaDeleteOne dbC1 1) ∧
    findOneByPartyIds (personaDeleteOne dbC1 1) 1 2 = some ⟨3, 1, 2, 0⟩ ∧
    findOneByPartyIds (personaDeleteOne dbC1 1) 2 1 = some ⟨4, 2, 1, 1⟩ := by decide

/-- C1 amended: `deletePersona` on a non-active existing persona removes only
the Persona record; the follow-edge store (and everything else) is left
completely unchanged — no cascade of any kind is performed. -/
theorem deletePersona_no_cascade (db : DB) (s : Session) (a : Nat)
    (hu : s.userId.isSome = true) (hact : s.personaId ≠ some a) (pa : Persona)
    (hex : findOneByPersonaId db a = some pa)
    (hnd : (db.personas.map Persona.pid).Nodup) :
    deletePersonaOp db s a = .ok (personaDeleteOne db a) ∧
    (personaDeleteOne db a).follows = db.follows ∧
    (personaDeleteOne db a).users = db.users ∧
    findOneByPersonaId (personaDeleteOne db a) a = none := by
  obtain ⟨uid, huid⟩ := Option.isSome_iff_exists.mp hu
  refine ⟨?_, rfl, rfl, ?_⟩
  · simp [deletePersonaOp, huid, hex, hact]
  · simp only [findOneByPersonaId, personaDeleteOne]
    exact find?_eraseP_of_nodup Persona.pid a hnd

/-- C1 witness: the amended statement evaluated on the concrete store of the
counterexample. -/
theorem deletePersona_no_cascade_witness :
    deletePersonaOp dbC1 ⟨some 0, none, none⟩ 1 = .ok (personaDeleteOne dbC1 1) ∧
    (personaDeleteOne dbC1 1).follows = dbC1.follows ∧
    (personaDeleteOne dbC1 1).users = dbC1.users ∧
    findOneByPersonaId (personaDeleteOne dbC1 1) 1 = none :=
  deletePersona_no_cascade dbC1 ⟨some 0, none, none⟩ 1 (by decide) (by decide)
    ⟨1, "u".data, "a1".data, "Ab".data⟩ (by decide) (by decide)

theorem findOneByPartyIds_addOne_same (db : DB) (a b : Nat)
    (hfwd : findOneByPartyIds db a b = none) :
    findOneByPartyIds (followAddOne db a b).1 a b = some (followAddOne db a b).2 := by
  simp only [findOneByPartyIds, followAddOne]
  rw [find?_append_none _ hfwd]
  simp [List.find?]

theorem findOneByPartyIds_addOne_rev (db : DB) (a b : Nat) (hab : a ≠ b)
    (hrev : findOneByPartyIds db b a = none) :
    findOneByPartyIds (followAddOne db a b).1 b a = none := by
  simp only [findOneByPartyIds, followAddOne]
  rw [find?_append_none _ hrev]
  simp [List.find?, beq_eq_false_iff_ne.mpr hab]

/-- C3: once `follow(a, b)` has succeeded, repeating `follow(a, b)` is
rejected with `AlreadyExists` (HTTP 409), while `follow(b, a)` — the reverse
ordered pair, issued by a session whose active persona is `b` — still
succeeds: the duplicate lookup is an equality on the exact ordered pair
`(followerId, followingId)`. -/
theorem follow_duplicate_ordered_pair (db : DB) (s1 s2 : Session) (a b : Nat)
    (hu1 : s1.userId.isSome = true) (hu2 : s2.userId.isSome = true)
    (ha : s1.personaId = some a) (hb : s2.personaId = some b) (hab : a ≠ b)
    (pa pb : Persona)
    (hpa : findOneByPersonaId db a = some pa)
    (hpb : findOneByPersonaId db b = some pb)
    (hfwd : findOneByPartyIds db a b = none)
    (hrev : findOneByPartyIds db b a = none) :
    followOp db s1 b = .ok ((followAddOne db a b).1, s1, (followAddOne db a b).2) ∧
    followOp (followAddOne db a b).1 s1 b = .error .conflict ∧
    followOp (followAddOne db a b).1 s2 a =
      .ok ((followAddOne (followAddOne db a b).1 b a).1, s2,
        (followAddOne (followAddOne db a b).1 b a).2) := by
  obtain ⟨u1, hu1'⟩ := Option.isSome_iff_exists.mp hu1
  obtain ⟨u2, hu2'⟩ := Option.isSome_iff_exists.mp hu2
  have hpb1 : findOneByPersonaId (followAddOne db a b).1 b = some pb := hpb
  have hpa1 : findOneByPersonaId (followAddOne db a b).1 a = some pa := hpa
  refine ⟨?_, ?_, ?_⟩
  · simp [followOp, hu1', ha, hpb, hfwd]
  · simp [followOp, hu1', ha, hpb1, findOneByPartyIds_addOne_same db a b hfwd]
  · simp [followOp, hu2', hb, hpa1, findOneByPartyIds_addOne_rev db a b hab hrev]

def dbC3 : DB := ⟨[⟨0, "u".data⟩],
  [⟨1, "u".data, "a1".data, "Ab".data⟩, ⟨2, "u".data, "b2".data, "Cd".data⟩],
  [], 3, 0⟩

/-- C3 witness: the duplicate/reverse behaviour on a concrete two-persona
store. -/
theorem follow_duplicate_ordered_pair_witness :
    followOp dbC3 ⟨some 0, some 1, none⟩ 2 =
      .ok ((followAddOne dbC3 1 2).1, ⟨some 0, some 1, none⟩,
        (followAddOne dbC3 1 2).2) ∧
    followOp (followAddOne dbC3 1 2).1 ⟨some 0, some 1, none⟩ 2 = .error .conflict ∧
    followOp (followAddOne dbC3 1 2).1 ⟨some 0, some 2, none⟩ 1 =
      .ok ((followAddOne (followAddOne dbC3 1 2).1 2 1).1, ⟨some 0, some 2, none⟩,
        (followAddOne (followAddOne dbC3 1 2).1 2 1).2) :=
  follow_duplicate_ordered_pair dbC3 ⟨some 0, some 1, none⟩ ⟨some 0, some 2, none⟩ 1 2
    (by decide) (by decide) (by decide) (by decide) (by decide)
    ⟨1, "u".data, "a1".data, "Ab".data⟩ ⟨2, "u".data, "b2".data, "Cd".data⟩
    (by decide) (by decide) (by decide) (by decide)

/-- C6: with no `(a, b)` edge present, `unfollow(a, b)` fails with `NotFound`;
after `follow(a, b)` succeeds, `unfollow(a, b)` succeeds, restores the
follow store exactly, `findEdge(a, b)` returns `NotFound`, and `b` no longer
appears in `listFollowing(a)`. -/
theorem unfollow_after_follow (db : DB) (s : Session) (a b : Nat)
    (hwf : ∀ f ∈ db.follows, f.fid < db.nextId)
    (hu : s.userId.isSome = true) (ha : s.personaId = some a)
    (pb : Persona) (hpb : findOneByPersonaId db b = some pb)
    (hfwd : findOneByPartyIds db a b = none) :
    unfollowOp db s b = .error .notFound ∧
    followOp db s b = .ok ((followAddOne db a b).1, s, (followAddOne db a b).2) ∧
    unfollowOp (followAddOne db a b).1 s b =
      .ok (followDeleteOne (followAddOne db a b).1 db.nextId, s) ∧
    (followDeleteOne (followAddOne db a b).1 db.nextId).follows = db.follows ∧
    findOneByPartyIds (followDeleteOne (followAddOne db a b).1 db.nextId) a b = none ∧
    b ∉ (findAllInitiatedById (followDeleteOne (followAddOne db a b).1 db.nextId) a).map
        Follow.followingId := by
  obtain ⟨uid, huid⟩ := Option.isSome_iff_exists.mp hu
  have hpb1 : findOneByPersonaId (followAddOne db a b).1 b = some pb := hpb
  have hrestore : (followDeleteOne (followAddOne db a b).1 db.nextId).follows =
      db.follows := by
    simp only [followDeleteOne, followAddOne]
    exact eraseP_fresh_append _
      (fun x hx => beq_eq_false_iff_ne.mpr (Nat.ne_of_lt (hwf x hx)))
      (beq_self_eq_true db.nextId)
  refine ⟨?_, ?_, ?_, hrestore, ?_, ?_⟩
  · simp [unfollowOp, huid, ha, hpb, hfwd]
  · simp [followOp, huid, ha, hpb, hfwd]
  · have hfid : (followAddOne db a b).2.fid = db.nextId := rfl
    simp [unfollowOp, huid, ha, hpb1, findOneByPartyIds_addOne_same db a b hfwd,
      followDeleteOne, hfid]
  · simp only [findOneByPartyIds] at hfwd ⊢
    rw [hrestore]
    exact hfwd
  · intro hmem
    rw [List.mem_map] at hmem
    obtain ⟨f, hf, hfb⟩ := hmem
    simp only [findAllInitiatedById, List.mem_filter, hrestore] at hf
    obtain ⟨hfmem, hfa⟩ := hf
    have : (fun g : Follow => g.followerId == a && g.followingId == b) f = true := by
      simp [beq_iff_eq.mp hfa, hfb]
    exact absurd this (List.find?_eq_none.mp hfwd f hfmem)

def dbC6 : DB := ⟨[⟨0, "u".data⟩],
  [⟨1, "u".data, "a1".data, "Ab".data⟩, ⟨2, "u".data, "b2".data, "Cd".data⟩],
  [], 3, 5⟩

/-- C6 witness: the follow/unfollow round trip on a concrete store. -/
theorem unfollow_after_follow_witness :
    unfollowOp dbC6 ⟨some 0, some 1, none⟩ 2 = .error .notFound ∧
    followOp dbC6 ⟨some 0, some 1, none⟩ 2 =
      .ok ((followAddOne dbC6 1 2).1, ⟨some 0, some 1, none⟩,
        (followAddOne dbC6 1 2).2) ∧
    unfollowOp (followAddOne dbC6 1 2).1 ⟨some 0, some 1, none⟩ 2 =
      .ok (followDeleteOne (followAddOne dbC6 1 2).1 dbC6.nextId,
        ⟨some 0, some 1, none⟩) ∧
    (followDeleteOne (followAddOne dbC6 1 2).1 dbC6.nextId).follows = dbC6.follows ∧
    findOneByPartyIds (followDeleteOne (followAddOne dbC6 1 2).1 dbC6.nextId) 1 2 =
      none ∧
    2 ∉ (findAllInitiatedById (followDeleteOne (followAddOne dbC6 1 2).1 dbC6.nextId)
        1).map Follow.followingId :=
  unfollow_after_follow dbC6 ⟨some 0, some 1, none⟩ 1 2 (by decide) (by decide)
    (by decide) ⟨2, "u".data, "b2".data, "Cd".data⟩ (by decide) (by decide)

/-- C9: `signIn` fails with `NotFound` exactly when no persona with the given
handle exists under the logged-in account (ownership is checked inside the
operation); on success it leaves the store untouched, binds the session's
`personaId` to the resolved persona's id, and returns that persona, whose
handle equals the request. -/
theorem signIn_binds_active_persona (db : DB) (s : Session) (handle : Str)
    (uid : Nat) (u : Usr) (hu : s.userId = some uid)
    (hfu : findOneByUserId db uid = some u)
    (hun : u.username.all wordChar = true)
    (hh : validHandle handle = true) :
    (signInPersona db s handle = .error .notFound ↔
      ∀ p ∈ db.personas, ¬(p.user = u.username ∧ p.handle = handle)) ∧
    ∀ db' s' p, signInPersona db s handle = .ok (db', s', p) →
      db' = db ∧ s' = { s with personaId := some p.pid } ∧
      findOneByHandle db handle = some p ∧ p.handle = handle := by
  have hrw := findOneByUserAndHandle_eq_exact db hun hh
  cases hq : db.personas.find? fun p => p.user == u.username && p.handle == handle with
  | none =>
    have hq' : findOneByUserAndHandle db u.username handle = none := by
      rw [hrw, hq]
    constructor
    · simp only [signInPersona, hu, hh, hfu, hq']
      constructor
      · intro _ p hp
        have := List.find?_eq_none.mp hq p hp
        simp only [Bool.and_eq_true, beq_iff_eq] at this
        intro hc
        exact this ⟨hc.1, hc.2⟩
      · intro _
        rfl
    · intro db' s' p hok
      simp [signInPersona, hu, hh, hfu, hq'] at hok
  | some q =>
    have hq' : findOneByUserAndHandle db u.username handle = some q := by
      rw [hrw, hq]
    have hqprop := List.find?_some hq
    simp only [Bool.and_eq_true, beq_iff_eq] at hqprop
    have hqmem : q ∈ db.personas := List.mem_of_find?_eq_some hq
    have hsome : ∃ p', findOneByHandle db handle = some p' := by
      rw [findOneByHandle_eq_exact db hh]
      have : (db.personas.find? fun p => p.handle == handle).isSome = true := by
        rw [List.find?_isSome]
        exact ⟨q, hqmem, beq_iff_eq.mpr hqprop.2⟩
      exact Option.isSome_iff_exists.mp this
    obtain ⟨p', hp'⟩ := hsome
    have hp'prop : p'.handle = handle := by
      have hx : db.personas.find? (fun p => p.handle == handle) = some p' := by
        rw [← findOneByHandle_eq_exact db hh]
        exact hp'
      have hpr := List.find?_some hx
      exact beq_iff_eq.mp hpr
    constructor
    · simp only [signInPersona, hu, hh, hfu, hq', hp']
      constructor
      · intro hcontra
        exact Except.noConfusion hcontra
      · intro hall
        exact absurd ⟨hqprop.1, hqprop.2⟩ (hall q hqmem)
    · intro db' s' p hok
      have heq : signInPersona db s handle =
          .ok (db, { s with personaId := some p'.pid }, p') := by
        simp [signInPersona, hu, hh, hfu, hq', hp']
      rw [heq] at hok
      have hmk := Except.ok.inj hok
      have g1 : db = db' := congrArg (fun t => t.1) hmk
      have g2 : ({ s with personaId := some p'.pid } : Session) = s' :=
        congrArg (fun t => t.2.1) hmk
      have g3 : p' = p := congrArg (fun t => t.2.2) hmk
      rw [← g1, ← g2, ← g3]
      exact ⟨rfl, rfl, hp', hp'prop⟩

def dbC9 : DB := ⟨[⟨0, "u".data⟩, ⟨1, "v".data⟩],
  [⟨2, "v".data, "bob".data, "Bo Bb".data⟩], [], 3, 0⟩

/-- C9 witness: the handle `bob` exists globally but belongs to account `v`,
so sign-in from account `u`'s session fails with `NotFound` — the ownership
check lives inside `signIn`. -/
theorem signIn_binds_active_persona_witness :
    signInPersona dbC9 ⟨some 0, none, none⟩ "bob".data = .error .notFound :=
  ((signIn_binds_active_persona dbC9 ⟨some 0, none, none⟩ "bob".data 0 ⟨0, "u".data⟩
    (by decide) (by decide) (by decide) (by decide)).1).mpr (by decide)

def dbC5 : DB := ⟨[⟨0, "u".data⟩],
  [⟨1, "u".data, "p1".data, "Aa".data⟩, ⟨2, "u".data, "p2".data, "Bb".data⟩,
   ⟨3, "u".data, "p3".data, "Cc".data⟩], [], 4, 10⟩

def dbC5' : DB := (followAddOne (followAddOne (followAddOne dbC5 1 2).1 3 2).1 1 3).1

/-- C5 (divergence): three edges are inserted at strictly increasing
timestamps 10, 11, 12; `findAllInitiatedById` (listFollowing) and
`findAllReceivedById` (listFollowers) — which apply no `.sort` — return them
in insertion order, i.e. ascending `dateFollowed` (oldest first), not
newest-first as the claim and the route doc comments state. -/
theorem listFollow_not_newest_first :
    dbC5'.follows = [⟨4, 1, 2, 10⟩, ⟨5, 3, 2, 11⟩, ⟨6, 1, 3, 12⟩] ∧
    findAllInitiatedById dbC5' 1 = [⟨4, 1, 2, 10⟩, ⟨6, 1, 3, 12⟩] ∧
    findAllReceivedById dbC5' 2 = [⟨4, 1, 2, 10⟩, ⟨5, 3, 2, 11⟩] := by decide

end Fritter
